import Mathlib

/-!
Shallow embedding of the core of `filebrowser/sites.py` (django-filebrowser):
the browse listing/filter pipeline, the date-filter helper, pagination,
the per-site action registry, the process-wide site registry and the
upload workflow, together with theorems settling the specification claims.
-/

namespace FB

/-! ### String utilities

Python compares strings lexicographically by code point.  Lean's built-in
`String.le` does not reduce inside the kernel, so we embed the comparison
directly on the character lists. -/

/-- Lexicographic comparison of character lists by code point, as Python
compares strings. -/
def lexLe : List Char → List Char → Bool
  | [], _ => true
  | _ :: _, [] => false
  | a :: as, b :: bs =>
    if a.toNat < b.toNat then true
    else if b.toNat < a.toNat then false
    else lexLe as bs

/-- Lexicographic string comparison (Python `<=` on `str`). -/
def strLe (a b : String) : Bool := lexLe a.data b.data

/-- Python's `str.lower()` restricted to the characters we model. -/
def strLower (s : String) : String := String.mk (s.data.map Char.toLower)

/-- Python's substring containment `needle in hay` on character lists. -/
def containsSub (needle hay : List Char) : Bool :=
  hay.tails.any (fun t => needle.isPrefixOf t)

/-- Python's substring containment `needle in hay` on strings. -/
def containsSubStr (needle hay : String) : Bool := containsSub needle.data hay.data

/-! ### Calendar model

Model of the UTC calendar decomposition performed by `time.gmtime` /
`strftime("%Y"/"%m"/"%d", ...)`, via the standard civil-from-days
algorithm; all quantities are natural numbers since the timestamps the
code feeds in are non-negative (`fileobject.date or 0`). -/

/-- Civil (year, month, day) of a day count since the Unix epoch. -/
def civilOfDays (days : Nat) : Nat × Nat × Nat :=
  let z := days + 719468
  let era := z / 146097
  let doe := z % 146097
  let yoe := (doe - doe / 1460 + doe / 36524 - doe / 146096) / 365
  let y := yoe + era * 400
  let doy := doe - (365 * yoe + yoe / 4 - yoe / 100)
  let mp := (5 * doy + 2) / 153
  let d := doy - (153 * mp + 2) / 5 + 1
  let m := if mp < 10 then mp + 3 else mp - 9
  (if m ≤ 2 then y + 1 else y, m, d)

/-- UTC (year, month, day) of a Unix timestamp, as read back from
`strftime("%Y", gmtime(t))` etc. in `get_filterdate`. -/
def gmtimeYMD (t : Nat) : Nat × Nat × Nat := civilOfDays (t / 86400)

/-- Embedding of `get_filterdate(filter_date, date_time)` from
`filebrowser/sites.py`.  The ambient clock is made explicit: `now` is the
value of `time.time()` and `(localY, localM, localD)` the first three
fields of `time.localtime()`. -/
def get_filterdate (filter_date : String) (date_time : Nat) (now : Nat)
    (localY localM localD : Nat) : String :=
  let ymd := gmtimeYMD date_time
  if filter_date = "today" ∧ ymd.1 = localY ∧ ymd.2.1 = localM ∧ ymd.2.2 = localD then "true"
  else if filter_date = "thismonth" ∧ date_time ≥ now - 2592000 then "true"
  else if filter_date = "thisyear" ∧ ymd.1 = localY then "true"
  else if filter_date = "past7days" ∧ date_time ≥ now - 604800 then "true"
  else if filter_date = "" then "true"
  else ""

/-! ### Search-pattern model

`browse` compiles the lower-cased search term with `re.compile(q.lower(), re.M)`
and tests entries with `re_q.search(filename.lower())`.  We embed the fragment
of Python's regular-expression syntax the claims exercise: literal characters
and the metacharacter `.` (any character except a newline).  `re.M` only
affects `^`/`$`, which lie outside the fragment. -/

/-- One token of the embedded regular-expression fragment. -/
inductive RTok where
  | lit (c : Char)
  | dot
deriving DecidableEq

/-- Parse a pattern string of the embedded fragment: `.` is the wildcard,
every other character is a literal. -/
def parsePattern (p : List Char) : List RTok :=
  p.map (fun c => if c = '.' then RTok.dot else RTok.lit c)

/-- Whether one token matches one character (`.` matches anything but a
newline, as in Python without `re.DOTALL`). -/
def tokMatch : RTok → Char → Bool
  | RTok.lit c, d => c = d
  | RTok.dot, d => d ≠ '\n'

/-- Whether the token list matches a prefix of the character list. -/
def matchHere : List RTok → List Char → Bool
  | [], _ => true
  | _ :: _, [] => false
  | t :: ts, c :: cs => tokMatch t c && matchHere ts cs

/-- Python's `re.search`: the pattern matches at some position of `s`. -/
def reSearch (pat : List RTok) (s : List Char) : Bool :=
  s.tails.any (matchHere pat)

/-- `re.search` on strings of the embedded fragment. -/
def reSearchStr (p s : String) : Bool := reSearch (parsePattern p.data) s.data

/-- The regular-expression metacharacters of Python's `re` module. -/
def reMetaChars : List Char :=
  ['.', '^', '$', '*', '+', '?', '\\', '[', ']', '|', '(', ')',
   Char.ofNat 123, Char.ofNat 125]

/-- A search term free of regular-expression metacharacters. -/
def noMetaChars (q : String) : Bool := q.data.all (fun c => decide (c ∉ reMetaChars))

/-! ### File entries and the browse filter pipeline

`FileObject` keeps the four attributes the browse loop reads:
`filename`, `filetype`, `date` (`None` when the backend cannot provide a
modification time; the loop reads `fileobject.date or 0`) and `format`. -/

/-- The slice of `filebrowser.base.FileObject` consumed by `browse`. -/
structure FileObject where
  filename : String
  filetype : String
  date : Option Nat
  format : String
deriving DecidableEq

/-- The type/date/format conjunction of the browse loop: each filter is
skipped when its query parameter is absent (empty), and the date filter
passes when `get_filterdate` returns a truthy (non-empty) string. -/
def baseFiltersPass (ft fd ff : String) (now ly lm ld : Nat) (fo : FileObject) : Bool :=
  (decide (ft = "") || decide (fo.filetype = ft)) &&
  (decide (fd = "") || decide (get_filterdate fd (fo.date.getD 0) now ly lm ld ≠ "")) &&
  (decide (ff = "") || containsSubStr ff fo.format)

/-- The search clause of the browse loop: with a non-empty term `q`, the
lower-cased term is compiled as a regular expression and searched in the
lower-cased filename. -/
def searchPass (q : String) (fo : FileObject) : Bool :=
  decide (q = "") || reSearchStr (strLower q) (strLower fo.filename)

/-- The per-entry inclusion decision of the browse loop (lines 317-333 of
`sites.py`): the type/date/format conjunction sets `append`, a failed
search resets it, and the final folder override forces inclusion. -/
def browseAppend (ft fd ff q : String) (now ly lm ld : Nat) (fo : FileObject) : Bool :=
  if fo.filetype = "Folder" then true
  else baseFiltersPass ft fd ff now ly lm ld fo && searchPass q fo

/-- The filtered result set `files` built by the browse loop. -/
def browseFiles (ft fd ff q : String) (now ly lm ld : Nat)
    (listing : List FileObject) : List FileObject :=
  listing.filter (browseAppend ft fd ff q now ly lm ld)

/-- `filelisting.results_total`: the count before the type/date/format/search
filters. -/
def results_total (listing : List FileObject) : Nat := listing.length

/-- `filelisting.results_current`: the count after filtering. -/
def results_current (ft fd ff q : String) (now ly lm ld : Nat)
    (listing : List FileObject) : Nat :=
  (browseFiles ft fd ff q now ly lm ld listing).length

/-! ### Directory trees and the listing source

Modelled from the spec: `FileListing.files_listing_filtered` (immediate
children of the root) and `FileListing.files_walk_filtered` (the full
recursive subtree) live in `filebrowser/base.py`, which is not part of the
sources; the spec describes them as "shallow yields immediate children;
recursive yields the full subtree". -/

/-- A directory tree: an entry together with its children (empty for plain
files). -/
inductive FTree where
  | node (fo : FileObject) (children : List FTree)

mutual

/-- Modelled from the spec: all entries of a subtree, root included
(`files_walk_filtered` applied below a root directory). -/
def filesWalk : FTree → List FileObject
  | FTree.node fo ch => fo :: filesWalkList ch

/-- Modelled from the spec: all entries appearing anywhere below a list of
sibling subtrees. -/
def filesWalkList : List FTree → List FileObject
  | [] => []
  | t :: ts => filesWalk t ++ filesWalkList ts

end

/-- Modelled from the spec: the shallow listing (`files_listing_filtered`),
the root entries of the sibling subtrees only. -/
def filesListing (ts : List FTree) : List FileObject :=
  ts.map (fun t => match t with | FTree.node fo _ => fo)

/-- The listing consumed by `browse`: the full walk when `SEARCH_TRAVERSE`
is set and a search term is present, the shallow listing otherwise. -/
def browseSourceListing (searchTraverse : Bool) (q : String)
    (ts : List FTree) : List FileObject :=
  if searchTraverse = true ∧ q ≠ "" then filesWalkList ts else filesListing ts

/-- An entry occurs somewhere in a subtree (at the root or below). -/
inductive InTree : FileObject → FTree → Prop where
  | here (fo : FileObject) (ch : List FTree) : InTree fo (FTree.node fo ch)
  | child (fo fo' : FileObject) (t : FTree) (ch : List FTree) :
      t ∈ ch → InTree fo t → InTree fo (FTree.node fo' ch)

/-! ### Paginator

Modelled from the spec: `browse` delegates slicing to Django's
`Paginator(files, LIST_PER_PAGE)` (external to the sources), whose
contract §4.3 describes: fixed-size pages, a clamp to the last valid page
for malformed requests, and page count 1 for an empty sequence. -/

/-- The requested page number `request.GET.get('p', '1')` after `int()`
conversion: `notANumber` when the conversion fails. -/
inductive PageReq where
  | notANumber
  | num (n : Int)

/-- Modelled from the spec: `Paginator.num_pages` with no orphans and an
allowed empty first page: `ceil(max(1, count) / perPage)`. -/
def numPages (count perPage : Nat) : Nat := (max 1 count + perPage - 1) / perPage

/-- Modelled from the spec: the items of page `n` (1-based). -/
def pageItems {α : Type} (files : List α) (perPage n : Nat) : List α :=
  (files.drop ((n - 1) * perPage)).take perPage

/-- Modelled from the spec: `Paginator.validate_number` — `none` encodes the
raised `PageNotAnInteger`/`EmptyPage`. -/
def validateNumber (count perPage : Nat) : PageReq → Option Nat
  | PageReq.notANumber => none
  | PageReq.num n =>
      if n < 1 then none
      else if n > (numPages count perPage : Int) then none
      else some n.toNat

/-- A page request the paginator rejects: non-numeric, below 1 or beyond
the page count. -/
def pageReqInvalid (count perPage : Nat) : PageReq → Prop
  | PageReq.notANumber => True
  | PageReq.num n => n < 1 ∨ n > (numPages count perPage : Int)

/-- The pagination step of `browse`: `page = p.page(page_nr)` with
`except (EmptyPage, InvalidPage): page = p.page(p.num_pages)`; returns the
served page number and its items. -/
def browsePage {α : Type} (files : List α) (perPage : Nat) (req : PageReq) :
    Nat × List α :=
  let np := numPages files.length perPage
  match validateNumber files.length perPage req with
  | some n => (n, pageItems files perPage n)
  | none => (np, pageItems files perPage np)

/-! ### Action registry -/

/-- The slice of a registered action the registry reads: the function's
`__name__` and its optional `short_description` / `applies_to`
attributes (absent attributes are filled in by `add_action`). -/
structure FBAction where
  fname : String
  short_description : Option String
  applies_to : Option (FileObject → Bool)

/-- Python's `str.capitalize()`: first character upper-cased, the rest
lower-cased. -/
def pyCapitalize (s : String) : String :=
  match s.data with
  | [] => ""
  | c :: cs => String.mk (Char.toUpper c :: cs.map Char.toLower)

/-- The defaulted short description
`action.__name__.replace("_", " ").capitalize()`. -/
def defaultShortDescription (fname : String) : String :=
  pyCapitalize (String.mk (fname.data.map (fun c => if c = '_' then ' ' else c)))

/-- The attribute filling `add_action` performs before storing an action. -/
def FBAction.withDefaults (a : FBAction) : FBAction :=
  { a with
    short_description := some (a.short_description.getD (defaultShortDescription a.fname)),
    applies_to := some (a.applies_to.getD (fun _ => true)) }

/-- `action.applies_to(fileobject)` (registered actions always carry the
attribute). -/
def FBAction.appliesTo (a : FBAction) (fo : FileObject) : Bool :=
  (a.applies_to.getD (fun _ => true)) fo

/-- `name = name or action.__name__`: an absent or empty name defaults to
the function's `__name__`. -/
def resolveActionName (a : FBAction) (nm : Option String) : String :=
  match nm with
  | some s => if s = "" then a.fname else s
  | none => a.fname

/-- Python-dict update on an insertion-ordered association list: an
existing key keeps its position, a new key is appended. -/
def dictSet {β : Type} : List (String × β) → String → β → List (String × β)
  | [], k, v => [(k, v)]
  | (k', v') :: t, k, v =>
      if k' = k then (k, v) :: t else (k', v') :: dictSet t k v

/-- Python-dict lookup. -/
def dictGet {β : Type} : List (String × β) → String → Option β
  | [], _ => none
  | (k', v') :: t, k => if k' = k then some v' else dictGet t k

/-- Python-dict deletion (`del d[k]`). -/
def dictDel {β : Type} (l : List (String × β)) (k : String) : List (String × β) :=
  l.filter (fun p => decide (p.1 ≠ k))

/-- The two action tables of a `FileBrowserSite`: `_actions` (the active
view) and `_global_actions` (the lookup-by-name view). -/
structure SiteActions where
  activeTable : List (String × FBAction)
  globalTable : List (String × FBAction)

/-- Embedding of `FileBrowserSite.add_action`: default the description and
the applicability predicate, then store the action in both tables. -/
def add_action (s : SiteActions) (action : FBAction) (nm : Option String) :
    SiteActions :=
  let name := resolveActionName action nm
  let stored := action.withDefaults
  { activeTable := dictSet s.activeTable name stored,
    globalTable := dictSet s.globalTable name stored }

/-- Embedding of `FileBrowserSite.disable_action`: `del self._actions[name]`;
`none` encodes the `KeyError` raised for an unknown name. -/
def disable_action (s : SiteActions) (name : String) : Option SiteActions :=
  if (dictGet s.activeTable name).isSome then
    some { s with activeTable := dictDel s.activeTable name }
  else none

/-- Embedding of `FileBrowserSite.get_action`: lookup in `_global_actions`
whether or not the action is enabled. -/
def get_action (s : SiteActions) (name : String) : Option FBAction :=
  dictGet s.globalTable name

/-- Embedding of the `FileBrowserSite.actions` property: the enabled
actions as `(name, action)` pairs sorted alphabetically by name. -/
def SiteActions.actions (s : SiteActions) : List (String × FBAction) :=
  s.activeTable.mergeSort (fun a b => strLe a.1 b.1)

/-- Embedding of `FileBrowserSite.applicable_actions`: the loop over
`self.actions` appending the pairs whose `applies_to` accepts the entry. -/
def applicable_actions (s : SiteActions) (fo : FileObject) :
    List (String × FBAction) :=
  (SiteActions.actions s).foldl
    (fun res p => if FBAction.appliesTo p.2 fo then res ++ [p] else res) []

/-! ### Site registry -/

/-- The process-wide `_sites_cache`: app name → (site name → site), with
sites drawn from an opaque type `σ`. -/
def SitesCache (σ : Type) : Type := List (String × List (String × σ))

/-- Embedding of `register_site(app_name, site_name, site)`: create the
inner dict when absent, then insert or overwrite the site binding. -/
def register_site {σ : Type} (cache : SitesCache σ) (app_name site_name : String)
    (site : σ) : SitesCache σ :=
  let inner := (dictGet cache app_name).getD []
  dictSet cache app_name (dictSet inner site_name site)

/-- Resolution of a site by its `(app_name, site_name)` key. -/
def lookup_site {σ : Type} (cache : SitesCache σ) (app_name site_name : String) :
    Option σ :=
  (dictGet cache app_name).bind (fun inner => dictGet inner site_name)

/-! ### Storage and the upload workflow

The storage methods (`exists`, `isdir`, `save`, `move`) are the capability
of §6; `isdir` and `move` come from `filebrowser.storage`, which is not
part of the sources, so they are modelled from the spec. -/

/-- A storage entry: a directory or a file with opaque content. -/
inductive FSEntry where
  | dir
  | file (content : Nat)
deriving DecidableEq

/-- The storage backend state: a partial map from paths to entries. -/
def Storage : Type := String → Option FSEntry

/-- `storage.exists(path)`. -/
def Storage.fsExists (σ : Storage) (p : String) : Bool := (σ p).isSome

/-- Modelled from the spec: `storage.isdir(path)` of the storage mixin. -/
def Storage.isdir (σ : Storage) (p : String) : Bool :=
  match σ p with
  | some FSEntry.dir => true
  | _ => false

/-- Pointwise update of the storage map. -/
def Storage.set (σ : Storage) (p : String) (e : FSEntry) : Storage :=
  fun r => if r = p then some e else σ r

/-- Modelled from the spec: `storage.save(path, content)` stores the content
at the requested path when free and otherwise at the backend-chosen
alternative name `avail path`, returning the actual stored path. -/
def Storage.save (σ : Storage) (avail : String → String) (p : String)
    (c : Nat) : String × Storage :=
  let q := if σ p = none then p else avail p
  (q, σ.set q (FSEntry.file c))

/-- Modelled from the spec: `storage.move(from, to, allow_overwrite=True)`
as invoked by the upload path (the overwrite guard is vacuous there). -/
def Storage.move (σ : Storage) (src dst : String) : Storage :=
  fun r => if r = dst then σ src else if r = src then none else σ r

/-- `os.path.join` restricted to the relative components used here. -/
def osPathJoin (a b : String) : String := if a = "" then b else a ++ "/" ++ b

/-- `os.path.basename`: the part after the last separator.  This is the
`FileObject.filename` of a stored path (modelled from the spec for the
attribute, which lives in `filebrowser/base.py`). -/
def fbBasename (s : String) : String :=
  String.mk ((s.data.reverse.takeWhile (fun c => decide (c ≠ '/'))).reverse)

/-- A recorded side effect of the upload handler. -/
inductive UpOp where
  | save
  | move
  | chmod
deriving DecidableEq

/-- The JSON reply of `_upload_file`. -/
structure UploadResult where
  success : Bool
  filename : String
  temp_filename : Option String
deriving DecidableEq

/-- Reply, final storage state and effect trace of one upload. -/
structure UploadOutcome where
  result : UploadResult
  storage : Storage
  ops : List UpOp

/-- The configuration `_upload_file` reads: the site directory, the
temporary-upload directory, the `OVERWRITE_EXISTING` policy, the optional
`DEFAULT_PERMISSIONS` mode, the filename normalization `convert_filename`
(modelled from the spec, it lives in `filebrowser/utils.py`) and the
backend's available-name choice for an occupied path. -/
structure UploadCfg where
  directory : String
  uploadTempdir : String
  overwriteExisting : Bool
  defaultPermissions : Option Nat
  convert : String → String
  avail : String → String

/-- The candidate final path of an upload: the target directory joined
with the normalized filename. -/
def candidatePath (cfg : UploadCfg) (folder : String) (temporary : Bool)
    (rawName : String) : String :=
  let path := if folder = cfg.uploadTempdir ∧ temporary = true then folder
              else osPathJoin cfg.directory folder
  osPathJoin path (cfg.convert rawName)

/-- Embedding of `FileBrowserSite._upload_file` (POST branch, one file):
normalize the filename, check the candidate path for a directory
collision, save to a backend-chosen path, move over the candidate when
overwriting, apply permissions, and reply. -/
def uploadFile (cfg : UploadCfg) (σ : Storage) (folder : String)
    (temporary : Bool) (rawName : String) (content : Nat) : UploadOutcome :=
  let file_name := cfg.convert rawName
  let file_path := candidatePath cfg folder temporary rawName
  let file_already_exists := σ.fsExists file_path
  let temp_filename :=
    if folder = cfg.uploadTempdir ∧ temporary = true then
      some (osPathJoin folder file_name)
    else none
  if file_already_exists = true ∧ σ.isdir file_path = true then
    ⟨⟨false, file_name, none⟩, σ, []⟩
  else
    let sv := σ.save cfg.avail file_path content
    let chmodOps := if cfg.defaultPermissions.isSome then [UpOp.chmod] else []
    if file_already_exists = true ∧ cfg.overwriteExisting = true then
      ⟨⟨true, fbBasename file_path, temp_filename⟩, Storage.move sv.2 sv.1 file_path,
        [UpOp.save, UpOp.move] ++ chmodOps⟩
    else
      ⟨⟨true, fbBasename sv.1, temp_filename⟩, sv.2, [UpOp.save] ++ chmodOps⟩

/-! ### Theorems -/

theorem lexLe_cons_iff (a b : Char) (as bs : List Char) :
    lexLe (a :: as) (b :: bs) = true ↔
      (a.toNat < b.toNat ∨ (a.toNat = b.toNat ∧ lexLe as bs = true)) := by
  simp only [lexLe]
  split_ifs with h1 h2
  · constructor
    · intro _; exact Or.inl h1
    · intro _; rfl
  · constructor
    · intro h; cases h
    · intro h
      rcases h with h | ⟨h, _⟩ <;> omega
  · have hab : a.toNat = b.toNat := by omega
    constructor
    · intro h; exact Or.inr ⟨hab, h⟩
    · intro h
      rcases h with h | ⟨_, h⟩
      · omega
      · exact h

theorem lexLe_total : ∀ as bs, (lexLe as bs || lexLe bs as) = true := by
  intro as
  induction as with
  | nil => intro bs; cases bs <;> simp [lexLe]
  | cons a as ih =>
    intro bs
    cases bs with
    | nil => simp [lexLe]
    | cons b bs =>
      rcases Nat.lt_trichotomy a.toNat b.toNat with h | h | h
      · simp [lexLe_cons_iff, h]
      · have htot := ih bs
        cases hx : lexLe as bs with
        | true => simp [lexLe_cons_iff, h, hx]
        | false =>
          have hyx : lexLe bs as = true := by rw [hx] at htot; simpa using htot
          simp [lexLe_cons_iff, h, hyx]
      · simp [lexLe_cons_iff, h]

theorem lexLe_trans :
    ∀ as bs cs, lexLe as bs = true → lexLe bs cs = true → lexLe as cs = true := by
  intro as
  induction as with
  | nil => intro bs cs _ _; simp [lexLe]
  | cons a as ih =>
    intro bs cs h1 h2
    cases bs with
    | nil => simp [lexLe] at h1
    | cons b bs =>
      cases cs with
      | nil => simp [lexLe] at h2
      | cons c cs =>
        rw [lexLe_cons_iff] at h1 h2 ⊢
        rcases h1 with h1 | ⟨h1e, h1r⟩
        · rcases h2 with h2 | ⟨h2e, _⟩
          · exact Or.inl (by omega)
          · exact Or.inl (by omega)
        · rcases h2 with h2 | ⟨h2e, h2r⟩
          · exact Or.inl (by omega)
          · exact Or.inr ⟨by omega, ih bs cs h1r h2r⟩

theorem matchHere_lits (q : List Char) (hq : ∀ c ∈ q, c ≠ '.') :
    ∀ t : List Char, matchHere (parsePattern q) t = q.isPrefixOf t := by
  induction q with
  | nil => intro t; simp [parsePattern, matchHere, List.isPrefixOf]
  | cons c cs ih =>
    intro t
    have hc : c ≠ '.' := hq c (List.mem_cons_self c cs)
    have ih' := ih (fun x hx => hq x (List.mem_cons_of_mem c hx))
    cases t with
    | nil => simp [parsePattern, matchHere, List.isPrefixOf]
    | cons d ds =>
      simp only [parsePattern, List.map_cons, if_neg hc, matchHere, tokMatch,
        List.isPrefixOf]
      by_cases hcd : c = d
      · subst hcd
        simpa [parsePattern] using ih' ds
      · simp [hcd]

theorem reSearch_lits (q s : List Char) (hq : ∀ c ∈ q, c ≠ '.') :
    reSearch (parsePattern q) s = containsSub q s := by
  unfold reSearch containsSub
  induction s.tails with
  | nil => rfl
  | cons t ts ih => simp [List.any_cons, matchHere_lits q hq t, ih]

mutual

theorem mem_filesWalk (fo : FileObject) :
    ∀ t : FTree, fo ∈ filesWalk t ↔ InTree fo t
  | FTree.node fo' ch => by
    simp only [filesWalk, List.mem_cons]
    constructor
    · intro h
      rcases h with h | h
      · subst h; exact InTree.here fo ch
      · rcases (mem_filesWalkList fo ch).mp h with ⟨t, ht, hin⟩
        exact InTree.child fo fo' t ch ht hin
    · intro h
      cases h with
      | here => exact Or.inl rfl
      | child _ t _ ht hin =>
        exact Or.inr ((mem_filesWalkList fo ch).mpr ⟨t, ht, hin⟩)

theorem mem_filesWalkList (fo : FileObject) :
    ∀ ts : List FTree, fo ∈ filesWalkList ts ↔ ∃ t, t ∈ ts ∧ InTree fo t
  | [] => by simp [filesWalkList]
  | t :: ts => by
    simp only [filesWalkList, List.mem_append, List.mem_cons]
    constructor
    · intro h
      rcases h with h | h
      · exact ⟨t, Or.inl rfl, (mem_filesWalk fo t).mp h⟩
      · rcases (mem_filesWalkList fo ts).mp h with ⟨u, hu, hi⟩
        exact ⟨u, Or.inr hu, hi⟩
    · rintro ⟨u, hu | hu, hi⟩
      · subst hu; exact Or.inl ((mem_filesWalk fo u).mpr hi)
      · exact Or.inr ((mem_filesWalkList fo ts).mpr ⟨u, hu, hi⟩)

end

/-- C1: for every combination of the type, date, format and search filters
the post-filter count `results_current` is at most the pre-filter count
`results_total`, and every folder entry of the unfiltered listing also
appears in the filtered result set. -/
theorem browse_counts_le_and_folders_kept (ft fd ff q : String) (now ly lm ld : Nat)
    (listing : List FileObject) :
    results_current ft fd ff q now ly lm ld listing ≤ results_total listing ∧
    ∀ fo ∈ listing, fo.filetype = "Folder" →
      fo ∈ browseFiles ft fd ff q now ly lm ld listing := by
  constructor
  · exact List.length_filter_le _ _
  · intro fo hmem hf
    refine List.mem_filter.mpr ⟨hmem, ?_⟩
    simp [browseAppend, hf]

/-- Witness for C1 at a concrete one-folder listing with all filters set. -/
theorem browse_counts_le_and_folders_kept_witness :
    results_current "Image" "past7days" "image" "zzz" 9 1970 1 1
        [⟨"sub", "Folder", none, ""⟩] ≤ results_total [⟨"sub", "Folder", none, ""⟩] ∧
    (⟨"sub", "Folder", none, ""⟩ : FileObject) ∈
      browseFiles "Image" "past7days" "image" "zzz" 9 1970 1 1
        [⟨"sub", "Folder", none, ""⟩] :=
  ⟨(browse_counts_le_and_folders_kept "Image" "past7days" "image" "zzz" 9 1970 1 1
      [⟨"sub", "Folder", none, ""⟩]).1,
   (browse_counts_le_and_folders_kept "Image" "past7days" "image" "zzz" 9 1970 1 1
      [⟨"sub", "Folder", none, ""⟩]).2 ⟨"sub", "Folder", none, ""⟩ (by decide) rfl⟩

/-- C4: each symbolic date bucket evaluates exactly as specified: `today`
compares the timestamp's UTC year/month/day with the current local
year/month/day, `thismonth` is a 2,592,000-second window, `thisyear`
compares the UTC year with the local year, `past7days` is a
604,800-second window, and the empty bucket always passes. -/
theorem get_filterdate_buckets (t now ly lm ld : Nat) :
    (get_filterdate "today" t now ly lm ld = "true" ↔
      ((gmtimeYMD t).1 = ly ∧ (gmtimeYMD t).2.1 = lm ∧ (gmtimeYMD t).2.2 = ld)) ∧
    (get_filterdate "thismonth" t now ly lm ld = "true" ↔
      (t : Int) ≥ (now : Int) - 2592000) ∧
    (get_filterdate "thisyear" t now ly lm ld = "true" ↔ (gmtimeYMD t).1 = ly) ∧
    (get_filterdate "past7days" t now ly lm ld = "true" ↔
      (t : Int) ≥ (now : Int) - 604800) ∧
    get_filterdate "" t now ly lm ld = "true" := by
  have e1 : ("today" : String) ≠ "thismonth" := by decide
  have e2 : ("today" : String) ≠ "thisyear" := by decide
  have e3 : ("today" : String) ≠ "past7days" := by decide
  have e4 : ("today" : String) ≠ "" := by decide
  have e5 : ("thismonth" : String) ≠ "today" := by decide
  have e6 : ("thismonth" : String) ≠ "thisyear" := by decide
  have e7 : ("thismonth" : String) ≠ "past7days" := by decide
  have e8 : ("thismonth" : String) ≠ "" := by decide
  have e9 : ("thisyear" : String) ≠ "today" := by decide
  have e10 : ("thisyear" : String) ≠ "thismonth" := by decide
  have e11 : ("thisyear" : String) ≠ "past7days" := by decide
  have e12 : ("thisyear" : String) ≠ "" := by decide
  have e13 : ("past7days" : String) ≠ "today" := by decide
  have e14 : ("past7days" : String) ≠ "thismonth" := by decide
  have e15 : ("past7days" : String) ≠ "thisyear" := by decide
  have e16 : ("past7days" : String) ≠ "" := by decide
  have e17 : ("" : String) ≠ "today" := by decide
  have e18 : ("" : String) ≠ "thismonth" := by decide
  have e19 : ("" : String) ≠ "thisyear" := by decide
  have e20 : ("" : String) ≠ "past7days" := by decide
  have etr : ("" : String) ≠ "true" := by decide
  refine ⟨?_, ?_, ?_, ?_, ?_⟩
  · by_cases hP : ((gmtimeYMD t).1 = ly ∧ (gmtimeYMD t).2.1 = lm ∧ (gmtimeYMD t).2.2 = ld)
    · simp [get_filterdate, hP]
    · simp [get_filterdate, hP, e1, e2, e3, e4, etr]
  · by_cases hP : t ≥ now - 2592000
    · simp [get_filterdate, e5, hP]
      omega
    · simp [get_filterdate, e5, e6, e7, e8, hP, etr]
      omega
  · by_cases hP : (gmtimeYMD t).1 = ly
    · simp [get_filterdate, e9, e10, hP]
    · simp [get_filterdate, e9, e10, e11, e12, hP, etr]
  · by_cases hP : t ≥ now - 604800
    · simp [get_filterdate, e13, e14, e15, hP]
      omega
    · simp [get_filterdate, e13, e14, e15, e16, hP, etr]
      omega
  · simp [get_filterdate, e17, e18, e19, e20]

/-- Witness for C4 at the timestamp 2025-10-12T00:00:00Z. -/
theorem get_filterdate_buckets_witness :
    (get_filterdate "today" 1760227200 1760227200 2025 10 12 = "true" ↔
      ((gmtimeYMD 1760227200).1 = 2025 ∧ (gmtimeYMD 1760227200).2.1 = 10 ∧
        (gmtimeYMD 1760227200).2.2 = 12)) ∧
    (get_filterdate "thismonth" 1760227200 1760227200 2025 10 12 = "true" ↔
      (1760227200 : Int) ≥ (1760227200 : Int) - 2592000) ∧
    (get_filterdate "thisyear" 1760227200 1760227200 2025 10 12 = "true" ↔
      (gmtimeYMD 1760227200).1 = 2025) ∧
    (get_filterdate "past7days" 1760227200 1760227200 2025 10 12 = "true" ↔
      (1760227200 : Int) ≥ (1760227200 : Int) - 604800) ∧
    get_filterdate "" 1760227200 1760227200 2025 10 12 = "true" :=
  get_filterdate_buckets 1760227200 1760227200 2025 10 12

/-- C10: a date-filter bucket outside the recognized set yields the falsy
empty string for every timestamp, so every entry surviving the browse
filter under a malformed date bucket is a folder. -/
theorem filterdate_malformed_excludes (b : String)
    (hb : b ∉ ["today", "thismonth", "thisyear", "past7days", ""]) :
    (∀ t now ly lm ld : Nat, get_filterdate b t now ly lm ld = "") ∧
    ∀ (ft ff q : String) (now ly lm ld : Nat) (listing : List FileObject)
      (fo : FileObject), fo ∈ browseFiles ft b ff q now ly lm ld listing →
      fo.filetype = "Folder" := by
  simp only [List.mem_cons, List.not_mem_nil, or_false, not_or] at hb
  obtain ⟨h1, h2, h3, h4, h5⟩ := hb
  have hval : ∀ t now ly lm ld : Nat, get_filterdate b t now ly lm ld = "" := by
    intro t now ly lm ld
    simp only [get_filterdate]
    rw [if_neg (by exact fun h => h1 h.1), if_neg (by exact fun h => h2 h.1),
        if_neg (by exact fun h => h3 h.1), if_neg (by exact fun h => h4 h.1),
        if_neg h5]
  refine ⟨hval, ?_⟩
  intro ft ff q now ly lm ld listing fo hmem
  have happ := (List.mem_filter.mp hmem).2
  by_contra hff
  simp only [browseAppend, if_neg hff, baseFiltersPass, hval,
    Bool.and_eq_true, Bool.or_eq_true, decide_eq_true_eq] at happ
  rcases happ with ⟨⟨⟨-, hdate⟩, -⟩, -⟩
  rcases hdate with hdate | hdate
  · exact h5 hdate
  · exact hdate rfl

/-- C8 counterexample: with search term `"a.c"` the browse loop includes the
non-folder entry named `"abc"` although `"a.c"` is not a case-insensitive
substring of `"abc"`: the search term is compiled as a regular expression
(`re.compile(q.lower())`), where `.` matches any character, so inclusion is
not substring matching. -/
theorem search_not_substring_cex :
    (⟨"abc", "Document", some 0, ""⟩ : FileObject) ∈
      browseFiles "" "" "" "a.c" 0 1970 1 1 [⟨"abc", "Document", some 0, ""⟩] ∧
    containsSubStr (strLower "a.c") (strLower "abc") = false := by
  constructor
  · decide
  · decide

/-- C8 as amended: the browse search clause includes a listed non-folder
entry (with the other filters passing) exactly when the lower-cased search
term, read as a regular expression, matches somewhere in the lower-cased
filename; for terms free of regular-expression metacharacters this
coincides with case-insensitive substring matching; and with the
`SEARCH_TRAVERSE` flag set and a non-empty term the consumed listing is the
recursive walk, which contains exactly the descendants of the root. -/
theorem browse_search_regex_semantics :
    (∀ q s : String, noMetaChars q = true → reSearchStr q s = containsSubStr q s) ∧
    (∀ (ft fd ff q : String) (now ly lm ld : Nat) (listing : List FileObject)
       (fo : FileObject), fo.filetype ≠ "Folder" →
       (fo ∈ browseFiles ft fd ff q now ly lm ld listing ↔
         fo ∈ listing ∧ baseFiltersPass ft fd ff now ly lm ld fo = true ∧
           searchPass q fo = true)) ∧
    (∀ (q : String) (ts : List FTree), q ≠ "" →
       browseSourceListing true q ts = filesWalkList ts) ∧
    (∀ (fo : FileObject) (ts : List FTree),
       fo ∈ filesWalkList ts ↔ ∃ t, t ∈ ts ∧ InTree fo t) := by
  refine ⟨?_, ?_, ?_, ?_⟩
  · intro q s h
    have hq : ∀ c ∈ q.data, c ≠ '.' := by
      intro c hc hcdot
      have hd : c ∉ reMetaChars := of_decide_eq_true ((List.all_eq_true.mp h) c hc)
      exact hd (hcdot ▸ (by decide : ('.' : Char) ∈ reMetaChars))
    exact reSearch_lits q.data s.data hq
  · intro ft fd ff q now ly lm ld listing fo hff
    simp [browseFiles, List.mem_filter, browseAppend, hff, Bool.and_eq_true,
      and_assoc]
  · intro q ts hq
    simp [browseSourceListing, hq]
  · intro fo ts
    exact mem_filesWalkList fo ts

/-- Witness for amended C8: concrete instances of all four parts. -/
theorem browse_search_regex_semantics_witness :
    reSearchStr "ab" "xaby" = containsSubStr "ab" "xaby" ∧
    ((⟨"abc", "Document", some 0, ""⟩ : FileObject) ∈
        browseFiles "" "" "" "b" 0 1970 1 1 [⟨"abc", "Document", some 0, ""⟩] ↔
      (⟨"abc", "Document", some 0, ""⟩ : FileObject) ∈
          ([⟨"abc", "Document", some 0, ""⟩] : List FileObject) ∧
        baseFiltersPass "" "" "" 0 1970 1 1 ⟨"abc", "Document", some 0, ""⟩ = true ∧
        searchPass "b" ⟨"abc", "Document", some 0, ""⟩ = true) ∧
    browseSourceListing true "b"
        [FTree.node ⟨"d", "Folder", none, ""⟩ [FTree.node ⟨"abc", "Document", some 0, ""⟩ []]] =
      filesWalkList
        [FTree.node ⟨"d", "Folder", none, ""⟩ [FTree.node ⟨"abc", "Document", some 0, ""⟩ []]] ∧
    ((⟨"abc", "Document", some 0, ""⟩ : FileObject) ∈
        filesWalkList
          [FTree.node ⟨"d", "Folder", none, ""⟩ [FTree.node ⟨"abc", "Document", some 0, ""⟩ []]] ↔
      ∃ t, t ∈ [FTree.node ⟨"d", "Folder", none, ""⟩
            [FTree.node ⟨"abc", "Document", some 0, ""⟩ []]] ∧
        InTree ⟨"abc", "Document", some 0, ""⟩ t) :=
  ⟨browse_search_regex_semantics.1 "ab" "xaby" (by decide),
   browse_search_regex_semantics.2.1 "" "" "" "b" 0 1970 1 1
     [⟨"abc", "Document", some 0, ""⟩] ⟨"abc", "Document", some 0, ""⟩ (by decide),
   browse_search_regex_semantics.2.2.1 "b"
     [FTree.node ⟨"d", "Folder", none, ""⟩ [FTree.node ⟨"abc", "Document", some 0, ""⟩ []]]
     (by decide),
   browse_search_regex_semantics.2.2.2 ⟨"abc", "Document", some 0, ""⟩
     [FTree.node ⟨"d", "Folder", none, ""⟩ [FTree.node ⟨"abc", "Document", some 0, ""⟩ []]]⟩

/-- Witness for C10 at the malformed bucket `"lastweek"`. -/
theorem filterdate_malformed_excludes_witness :
    get_filterdate "lastweek" 5 5 1970 1 1 = "" ∧
    FileObject.filetype ⟨"sub", "Folder", none, ""⟩ = "Folder" :=
  ⟨(filterdate_malformed_excludes "lastweek" (by decide)).1 5 5 1970 1 1,
   (filterdate_malformed_excludes "lastweek" (by decide)).2 "" "" "" 0 1970 1 1
     [⟨"sub", "Folder", none, ""⟩] ⟨"sub", "Folder", none, ""⟩ (by decide)⟩

/-- C5: an invalid page request (non-numeric, below 1, or beyond the page
count) is served the last valid page instead of an error, and an empty
sequence has page count 1 and is served an empty page numbered 1. -/
theorem paginate_clamps_and_empty {α : Type} (files : List α) (perPage : Nat)
    (hp : 0 < perPage) (req : PageReq) :
    (pageReqInvalid files.length perPage req →
      browsePage files perPage req =
        (numPages files.length perPage,
         pageItems files perPage (numPages files.length perPage))) ∧
    (files = [] →
      numPages files.length perPage = 1 ∧ browsePage files perPage req = (1, [])) := by
  constructor
  · intro hinv
    cases req with
    | notANumber => rfl
    | num n =>
      by_cases hn : n < 1
      · simp [browsePage, validateNumber, hn]
      · rcases hinv with h | h
        · exact absurd h hn
        · simp [browsePage, validateNumber, hn, h]
  · intro hemp
    subst hemp
    have hnp : numPages 0 perPage = 1 := by
      have h1 : max 1 0 + perPage - 1 = perPage := by omega
      unfold numPages
      rw [h1]
      exact Nat.div_self hp
    refine ⟨by simpa using hnp, ?_⟩
    cases req with
    | notANumber => simp [browsePage, validateNumber, hnp, pageItems]
    | num n =>
      by_cases hn : n < 1
      · simp [browsePage, validateNumber, hn, hnp, pageItems]
      · by_cases h2 : (1 : Int) < n
        · simp [browsePage, validateNumber, hn, h2, hnp, pageItems]
        · have hone : n = 1 := by omega
          subst hone
          simp [browsePage, validateNumber, hnp, pageItems]

/-- Witness for C5: page 99 of 25 items in pages of 10 clamps to page 3,
and the empty sequence yields one empty page. -/
theorem paginate_clamps_and_empty_witness :
    browsePage (List.range 25) 10 (PageReq.num 99) =
      (numPages (List.range 25).length 10,
       pageItems (List.range 25) 10 (numPages (List.range 25).length 10)) ∧
    numPages (List.length ([] : List Nat)) 10 = 1 ∧
    browsePage ([] : List Nat) 10 (PageReq.num 99) = (1, []) :=
  ⟨(paginate_clamps_and_empty (List.range 25) 10 (by decide) (PageReq.num 99)).1
      (Or.inr (by decide)),
   (paginate_clamps_and_empty ([] : List Nat) 10 (by decide) (PageReq.num 99)).2 rfl⟩

theorem dictGet_dictSet {β : Type} (l : List (String × β)) (k : String) (v : β) :
    dictGet (dictSet l k v) k = some v := by
  induction l with
  | nil => simp [dictSet, dictGet]
  | cons p t ih =>
    obtain ⟨k', v'⟩ := p
    by_cases h : k' = k
    · simp [dictSet, dictGet, h]
    · simp [dictSet, dictGet, h, ih]

theorem dictGet_dictSet_ne {β : Type} (l : List (String × β)) (k k' : String)
    (v : β) (h : k' ≠ k) : dictGet (dictSet l k v) k' = dictGet l k' := by
  induction l with
  | nil => simp [dictSet, dictGet, Ne.symm h]
  | cons p t ih =>
    obtain ⟨k0, v0⟩ := p
    by_cases h0 : k0 = k
    · subst h0
      simp [dictSet, dictGet, Ne.symm h]
    · simp only [dictSet, if_neg h0, dictGet]
      by_cases h1 : k0 = k'
      · simp [h1]
      · simp [h1, ih]

theorem dictGet_dictDel {β : Type} (l : List (String × β)) (k : String) :
    dictGet (dictDel l k) k = none := by
  induction l with
  | nil => simp [dictDel, dictGet]
  | cons p t ih =>
    obtain ⟨k0, v0⟩ := p
    by_cases h0 : k0 = k
    · simpa [dictDel, h0] using ih
    · simpa [dictDel, dictGet, h0] using ih

theorem mem_dictDel_key {β : Type} (l : List (String × β)) (k : String)
    (p : String × β) (hp : p ∈ dictDel l k) : p.1 ≠ k := by
  have := List.of_mem_filter hp
  simpa using this

/-- C6: after registering an action and disabling its name, the name is
absent from the active `actions` listing, yet `get_action` still returns
the registered action. -/
theorem disabled_action_still_retrievable (s : SiteActions) (a : FBAction)
    (nm : Option String) :
    ∃ s2, disable_action (add_action s a nm) (resolveActionName a nm) = some s2 ∧
      (∀ p ∈ SiteActions.actions s2, p.1 ≠ resolveActionName a nm) ∧
      get_action s2 (resolveActionName a nm) = some a.withDefaults := by
  set n := resolveActionName a nm with hn
  have hget : dictGet (add_action s a nm).activeTable n = some a.withDefaults := by
    simp [add_action, hn, dictGet_dictSet]
  refine ⟨{ add_action s a nm with
            activeTable := dictDel (add_action s a nm).activeTable n }, ?_, ?_, ?_⟩
  · simp [disable_action, hget]
  · intro p hp
    have hperm := List.mergeSort_perm
      (dictDel (add_action s a nm).activeTable n) (fun a b => strLe a.1 b.1)
    exact mem_dictDel_key _ n p (hperm.mem_iff.mp hp)
  · simp [get_action, add_action, hn, dictGet_dictSet]

/-- Witness for C6: registering `flip` and disabling it on an empty
registry. -/
theorem disabled_action_still_retrievable_witness :
    ∃ s2,
      disable_action
          (add_action ⟨[], []⟩ ⟨"flip", none, none⟩ (some "flip"))
          (resolveActionName ⟨"flip", none, none⟩ (some "flip")) = some s2 ∧
      (∀ p ∈ SiteActions.actions s2,
        p.1 ≠ resolveActionName ⟨"flip", none, none⟩ (some "flip")) ∧
      get_action s2 (resolveActionName ⟨"flip", none, none⟩ (some "flip")) =
        some (FBAction.withDefaults ⟨"flip", none, none⟩) :=
  disabled_action_still_retrievable ⟨[], []⟩ ⟨"flip", none, none⟩ (some "flip")

theorem strLe_asymm_key (x y : String) (h1 : strLe x y = true)
    (h2 : strLe y x = true) : x = y := by
  have : ∀ as bs : List Char, lexLe as bs = true → lexLe bs as = true → as = bs := by
    intro as
    induction as with
    | nil =>
      intro bs h1 h2
      cases bs with
      | nil => rfl
      | cons b t => simp [lexLe] at h2
    | cons a t ih =>
      intro bs h1 h2
      cases bs with
      | nil => simp [lexLe] at h1
      | cons b u =>
        rw [lexLe_cons_iff] at h1 h2
        have hab : a.toNat = b.toNat := by
          rcases h1 with h1 | ⟨h1, _⟩ <;> rcases h2 with h2 | ⟨h2, _⟩ <;> omega
        have hchar : a = b := by
          have hv : a.val.toNat = b.val.toNat := hab
          exact Char.ext (UInt32.ext hv)
        rcases h1 with h1 | ⟨_, h1⟩
        · omega
        · rcases h2 with h2 | ⟨_, h2⟩
          · omega
          · rw [hchar, ih u h1 h2]
  have hd := this x.data y.data h1 h2
  cases x with
  | mk dx =>
    cases y with
    | mk dy => exact congrArg String.mk (by simpa using hd)

theorem sorted_nodupkeys_perm_eq :
    ∀ (l₁ l₂ : List (String × FBAction)), l₁.Perm l₂ →
      List.Pairwise (fun p q : String × FBAction => strLe p.1 q.1 = true) l₁ →
      List.Pairwise (fun p q : String × FBAction => strLe p.1 q.1 = true) l₂ →
      (l₁.map Prod.fst).Nodup → l₁ = l₂ := by
  intro l₁
  induction l₁ with
  | nil =>
    intro l₂ hperm _ _ _
    exact List.Perm.nil_eq hperm
  | cons a t₁ ih =>
    intro l₂ hperm hs1 hs2 hnd
    cases l₂ with
    | nil => exact absurd hperm.symm (by simp)
    | cons b t₂ =>
      have hab : a = b := by
        have hamem : a ∈ b :: t₂ := hperm.mem_iff.mp (List.mem_cons_self a t₁)
        rcases List.mem_cons.mp hamem with h | hat2
        · exact h
        · have hbmem : b ∈ a :: t₁ := hperm.symm.mem_iff.mp (List.mem_cons_self b t₂)
          rcases List.mem_cons.mp hbmem with h | hbt1
          · exact h.symm
          · have hba : strLe b.1 a.1 = true :=
              (List.pairwise_cons.mp hs2).1 a hat2
            have hab' : strLe a.1 b.1 = true :=
              (List.pairwise_cons.mp hs1).1 b hbt1
            have hkey : a.1 = b.1 := strLe_asymm_key _ _ hab' hba
            exfalso
            have : a.1 ∈ t₁.map Prod.fst := by
              rw [hkey]
              exact List.mem_map_of_mem Prod.fst hbt1
            exact (List.nodup_cons.mp (by simpa using hnd)).1 this
      subst hab
      have hperm' : t₁.Perm t₂ := hperm.cons_inv
      have := ih t₂ hperm' (List.pairwise_cons.mp hs1).2 (List.pairwise_cons.mp hs2).2
        (List.nodup_cons.mp (by simpa using hnd)).2
      rw [this]

/-- C7: the `actions` property lists exactly the enabled actions, sorted
lexicographically by name; it is independent of registration order for
duplicate-free tables; and `applicable_actions` is the subsequence of that
sorted list accepted by `applies_to`, in the same order. -/
theorem actions_sorted_and_applicable (s : SiteActions) (fo : FileObject) :
    List.Pairwise (fun p q : String × FBAction => strLe p.1 q.1 = true)
      (SiteActions.actions s) ∧
    (SiteActions.actions s).Perm s.activeTable ∧
    (∀ s' : SiteActions, s'.activeTable.Perm s.activeTable →
      (s.activeTable.map Prod.fst).Nodup →
      SiteActions.actions s' = SiteActions.actions s) ∧
    applicable_actions s fo =
      (SiteActions.actions s).filter (fun p => FBAction.appliesTo p.2 fo) := by
  have hsorted : ∀ l : List (String × FBAction),
      List.Pairwise (fun p q : String × FBAction => strLe p.1 q.1 = true)
        (l.mergeSort (fun a b => strLe a.1 b.1)) := by
    intro l
    exact @List.sorted_mergeSort (String × FBAction) (fun a b => strLe a.1 b.1)
      (fun a b c hab hbc => lexLe_trans _ _ _ hab hbc)
      (fun a b => lexLe_total _ _) l
  refine ⟨hsorted s.activeTable, List.mergeSort_perm _ _, ?_, ?_⟩
  · intro s' hperm hnd
    have hp1 : (SiteActions.actions s').Perm (SiteActions.actions s) :=
      ((List.mergeSort_perm s'.activeTable _).trans hperm).trans
        (List.mergeSort_perm s.activeTable _).symm
    have hnd' : ((SiteActions.actions s').map Prod.fst).Nodup := by
      refine (List.Perm.nodup_iff (List.Perm.map Prod.fst ?_)).mpr hnd
      exact (List.mergeSort_perm s'.activeTable _).trans hperm
    exact sorted_nodupkeys_perm_eq _ _ hp1 (hsorted s'.activeTable)
      (hsorted s.activeTable) hnd'
  · have hfold : ∀ (l acc : List (String × FBAction)),
        l.foldl (fun res p => if FBAction.appliesTo p.2 fo then res ++ [p] else res)
          acc = acc ++ l.filter (fun p => FBAction.appliesTo p.2 fo) := by
      intro l
      induction l with
      | nil => intro acc; simp
      | cons x t ihl =>
        intro acc
        by_cases hx : FBAction.appliesTo x.2 fo
        · simp [List.foldl_cons, hx, ihl, List.filter_cons]
        · simp [List.foldl_cons, hx, ihl, List.filter_cons]
    simpa [applicable_actions] using hfold (SiteActions.actions s) []

/-- Witness for C7 at a two-action registry registered in reverse order. -/
theorem actions_sorted_and_applicable_witness :
    SiteActions.actions
        ⟨[("rotate", ⟨"rotate", some "Rotate", some (fun _ => true)⟩),
          ("flip", ⟨"flip", some "Flip", some (fun _ => true)⟩)], []⟩ =
      SiteActions.actions
        ⟨[("flip", ⟨"flip", some "Flip", some (fun _ => true)⟩),
          ("rotate", ⟨"rotate", some "Rotate", some (fun _ => true)⟩)], []⟩ :=
  (actions_sorted_and_applicable
      ⟨[("flip", ⟨"flip", some "Flip", some (fun _ => true)⟩),
        ("rotate", ⟨"rotate", some "Rotate", some (fun _ => true)⟩)], []⟩
      ⟨"x", "Image", none, ""⟩).2.2.1
    ⟨[("rotate", ⟨"rotate", some "Rotate", some (fun _ => true)⟩),
      ("flip", ⟨"flip", some "Flip", some (fun _ => true)⟩)], []⟩
    (List.Perm.swap _ _ _)
    (by decide)

/-- C9: registering a site inserts or overwrites the binding of its
`(app_name, site_name)` key — after two registrations under one key,
lookup resolves to the second site — and leaves every other key's binding
unchanged. -/
theorem register_site_overwrites {σ : Type} (cache : SitesCache σ)
    (app nm : String) (s1 s2 : σ) :
    lookup_site (register_site (register_site cache app nm s1) app nm s2) app nm =
      some s2 ∧
    ∀ app' nm', (app', nm') ≠ (app, nm) →
      lookup_site (register_site cache app nm s1) app' nm' =
        lookup_site cache app' nm' := by
  constructor
  · simp [lookup_site, register_site, dictGet_dictSet]
  · intro app' nm' hne
    by_cases happ : app' = app
    · subst happ
      have hnm : nm' ≠ nm := by
        intro h; exact hne (by rw [h])
      simp only [lookup_site, register_site, dictGet_dictSet, Option.some_bind]
      rw [dictGet_dictSet_ne _ _ _ _ hnm]
      cases hc : dictGet cache app' with
      | none => simp [dictGet]
      | some inner => simp
    · simp only [lookup_site, register_site]
      rw [dictGet_dictSet_ne _ _ _ _ happ]

/-- Witness for C9: two registrations of sites `1` then `2` under one key
leave `2` resolvable, and an unrelated key is untouched. -/
theorem register_site_overwrites_witness :
    lookup_site (register_site (register_site ([] : SitesCache Nat)
        "filebrowser" "site" 1) "filebrowser" "site" 2) "filebrowser" "site" =
      some 2 ∧
    lookup_site (register_site ([] : SitesCache Nat) "filebrowser" "site" 1)
        "other" "x" =
      lookup_site ([] : SitesCache Nat) "other" "x" :=
  ⟨(register_site_overwrites ([] : SitesCache Nat) "filebrowser" "site" 1 2).1,
   (register_site_overwrites ([] : SitesCache Nat) "filebrowser" "site" 1 2).2
     "other" "x" (by decide)⟩

theorem takeWhile_append_all {p : Char → Bool} :
    ∀ (l₁ : List Char) (c : Char) (l₂ : List Char),
      (∀ x ∈ l₁, p x = true) → p c = false →
      (l₁ ++ c :: l₂).takeWhile p = l₁ := by
  intro l₁
  induction l₁ with
  | nil => intro c l₂ _ hc; simp [List.takeWhile_cons, hc]
  | cons a t ih =>
    intro c l₂ hall hc
    have ha : p a = true := hall a (List.mem_cons_self a t)
    simp [List.takeWhile_cons, ha,
      ih c l₂ (fun x hx => hall x (List.mem_cons_of_mem a hx)) hc]

theorem takeWhile_all {p : Char → Bool} :
    ∀ l : List Char, (∀ x ∈ l, p x = true) → l.takeWhile p = l := by
  intro l
  induction l with
  | nil => intro _; rfl
  | cons a t ih =>
    intro hall
    simp [List.takeWhile_cons, hall a (List.mem_cons_self a t),
      ih (fun x hx => hall x (List.mem_cons_of_mem a hx))]

theorem fbBasename_noSlash (b : String)
    (hb : b.data.all (fun c => decide (c ≠ '/')) = true) : fbBasename b = b := by
  unfold fbBasename
  have hall : ∀ x ∈ b.data.reverse, (fun c => decide (c ≠ '/')) x = true := by
    intro x hx
    exact List.all_eq_true.mp hb x (List.mem_reverse.mp hx)
  rw [takeWhile_all _ hall, List.reverse_reverse]

theorem fbBasename_join (a b : String)
    (hb : b.data.all (fun c => decide (c ≠ '/')) = true) :
    fbBasename (osPathJoin a b) = b := by
  unfold osPathJoin
  by_cases ha : a = ""
  · rw [if_pos ha]
    exact fbBasename_noSlash b hb
  · rw [if_neg ha]
    unfold fbBasename
    have h1 : ("/" : String).data = ['/'] := rfl
    have hdata : (a ++ "/" ++ b).data = a.data ++ '/' :: b.data := by
      rw [String.data_append, String.data_append, h1, List.append_assoc]
      rfl
    rw [hdata]
    have hrev : (a.data ++ '/' :: b.data).reverse =
        b.data.reverse ++ '/' :: a.data.reverse := by
      simp [List.reverse_append]
    rw [hrev]
    have hall : ∀ x ∈ b.data.reverse, (fun c => decide (c ≠ '/')) x = true := by
      intro x hx
      exact List.all_eq_true.mp hb x (List.mem_reverse.mp hx)
    rw [takeWhile_append_all _ '/' _ hall (by decide), List.reverse_reverse]

/-- C2: when the normalized candidate path already exists in storage as a
directory, the upload aborts with `success = false` carrying the colliding
filename, performing no save, no move and no permission change: the
outcome returns the storage state unchanged and an empty effect trace. -/
theorem upload_dir_collision_aborts (cfg : UploadCfg) (σ : Storage)
    (folder : String) (temporary : Bool) (rawName : String) (content : Nat)
    (h : σ (candidatePath cfg folder temporary rawName) = some FSEntry.dir) :
    uploadFile cfg σ folder temporary rawName content =
      ⟨⟨false, cfg.convert rawName, none⟩, σ, []⟩ := by
  have hex : Storage.fsExists σ (candidatePath cfg folder temporary rawName) = true := by
    simp [Storage.fsExists, h]
  have hdir : Storage.isdir σ (candidatePath cfg folder temporary rawName) = true := by
    simp [Storage.isdir, h]
  simp [uploadFile, hex, hdir]

/-- Witness for C2: uploading `report.pdf` onto an existing directory
`media/up/report.pdf` aborts and leaves the storage untouched. -/
theorem upload_dir_collision_aborts_witness :
    uploadFile ⟨"media", "tmp", true, some 420, id, fun p => p ++ "_1"⟩
        (fun p => if p = "media/up/report.pdf" then some FSEntry.dir else none)
        "up" false "report.pdf" 7 =
      ⟨⟨false, "report.pdf", none⟩,
       (fun p => if p = "media/up/report.pdf" then some FSEntry.dir else none),
       []⟩ :=
  upload_dir_collision_aborts
    ⟨"media", "tmp", true, some 420, id, fun p => p ++ "_1"⟩
    (fun p => if p = "media/up/report.pdf" then some FSEntry.dir else none)
    "up" false "report.pdf" 7 (by decide)

/-- C3: when the candidate path exists as a plain file the upload never
fails: with the overwrite policy enabled the freshly saved content is
moved onto the candidate path and the reply carries the candidate name;
with the policy disabled the reply carries the name of the backend-chosen
disambiguated path, that path holds the new content and the pre-existing
file at the candidate path is untouched. -/
theorem upload_file_collision_policy (cfg : UploadCfg) (σ : Storage)
    (folder : String) (temporary : Bool) (rawName : String) (content c0 : Nat)
    (hex : σ (candidatePath cfg folder temporary rawName) = some (FSEntry.file c0))
    (hfresh : σ (cfg.avail (candidatePath cfg folder temporary rawName)) = none)
    (hname : (cfg.convert rawName).data.all (fun c => decide (c ≠ '/')) = true) :
    (uploadFile cfg σ folder temporary rawName content).result.success = true ∧
    (cfg.overwriteExisting = true →
      (uploadFile cfg σ folder temporary rawName content).result.filename =
        cfg.convert rawName ∧
      (uploadFile cfg σ folder temporary rawName content).storage
        (candidatePath cfg folder temporary rawName) = some (FSEntry.file content)) ∧
    (cfg.overwriteExisting = false →
      (uploadFile cfg σ folder temporary rawName content).result.filename =
        fbBasename (cfg.avail (candidatePath cfg folder temporary rawName)) ∧
      (uploadFile cfg σ folder temporary rawName content).storage
        (candidatePath cfg folder temporary rawName) = some (FSEntry.file c0) ∧
      (uploadFile cfg σ folder temporary rawName content).storage
        (cfg.avail (candidatePath cfg folder temporary rawName)) =
        some (FSEntry.file content)) := by
  have hne : cfg.avail (candidatePath cfg folder temporary rawName) ≠
      candidatePath cfg folder temporary rawName := by
    intro he
    rw [he, hex] at hfresh
    cases hfresh
  have hbase : fbBasename (candidatePath cfg folder temporary rawName) =
      cfg.convert rawName := by
    unfold candidatePath
    exact fbBasename_join _ _ hname
  have hne' : candidatePath cfg folder temporary rawName ≠
      cfg.avail (candidatePath cfg folder temporary rawName) := Ne.symm hne
  have hexT : Storage.fsExists σ (candidatePath cfg folder temporary rawName) = true := by
    simp [Storage.fsExists, hex]
  have hdirF : Storage.isdir σ (candidatePath cfg folder temporary rawName) = false := by
    simp [Storage.isdir, hex]
  have hsv : Storage.save σ cfg.avail (candidatePath cfg folder temporary rawName)
        content =
      (cfg.avail (candidatePath cfg folder temporary rawName),
       Storage.set σ (cfg.avail (candidatePath cfg folder temporary rawName))
         (FSEntry.file content)) := by
    simp [Storage.save, hex]
  refine ⟨?_, ?_, ?_⟩
  · cases how : cfg.overwriteExisting <;>
      simp [uploadFile, hexT, hdirF, how]
  · intro how
    refine ⟨?_, ?_⟩
    · simp [uploadFile, hexT, hdirF, how, hsv, hbase]
    · simp [uploadFile, hexT, hdirF, how, hsv, Storage.move, Storage.set]
  · intro how
    refine ⟨?_, ?_, ?_⟩
    · simp [uploadFile, hexT, hdirF, how, hsv]
    · simp [uploadFile, hexT, hdirF, how, hsv, Storage.set, hne', hex]
    · simp [uploadFile, hexT, hdirF, how, hsv, Storage.set]

/-- Witness for C3 in both policies: a collision with an existing file
`media/up/report.pdf` holding content `1`. -/
theorem upload_file_collision_policy_witness :
    ((uploadFile ⟨"media", "tmp", false, none, id, fun p => p ++ "_1"⟩
        (fun p => if p = "media/up/report.pdf" then some (FSEntry.file 1) else none)
        "up" false "report.pdf" 9).result.success = true ∧
      (uploadFile ⟨"media", "tmp", false, none, id, fun p => p ++ "_1"⟩
        (fun p => if p = "media/up/report.pdf" then some (FSEntry.file 1) else none)
        "up" false "report.pdf" 9).storage "media/up/report.pdf" =
        some (FSEntry.file 1) ∧
      (uploadFile ⟨"media", "tmp", false, none, id, fun p => p ++ "_1"⟩
        (fun p => if p = "media/up/report.pdf" then some (FSEntry.file 1) else none)
        "up" false "report.pdf" 9).storage "media/up/report.pdf_1" =
        some (FSEntry.file 9)) ∧
    ((uploadFile ⟨"media", "tmp", true, none, id, fun p => p ++ "_1"⟩
        (fun p => if p = "media/up/report.pdf" then some (FSEntry.file 1) else none)
        "up" false "report.pdf" 9).result.filename = "report.pdf" ∧
      (uploadFile ⟨"media", "tmp", true, none, id, fun p => p ++ "_1"⟩
        (fun p => if p = "media/up/report.pdf" then some (FSEntry.file 1) else none)
        "up" false "report.pdf" 9).storage "media/up/report.pdf" =
        some (FSEntry.file 9)) :=
  ⟨⟨(upload_file_collision_policy
        ⟨"media", "tmp", false, none, id, fun p => p ++ "_1"⟩
        (fun p => if p = "media/up/report.pdf" then some (FSEntry.file 1) else none)
        "up" false "report.pdf" 9 1 (by decide) (by decide) (by decide)).1,
    ((upload_file_collision_policy
        ⟨"media", "tmp", false, none, id, fun p => p ++ "_1"⟩
        (fun p => if p = "media/up/report.pdf" then some (FSEntry.file 1) else none)
        "up" false "report.pdf" 9 1 (by decide) (by decide) (by decide)).2.2 rfl).2.1,
    ((upload_file_collision_policy
        ⟨"media", "tmp", false, none, id, fun p => p ++ "_1"⟩
        (fun p => if p = "media/up/report.pdf" then some (FSEntry.file 1) else none)
        "up" false "report.pdf" 9 1 (by decide) (by decide) (by decide)).2.2 rfl).2.2⟩,
   ⟨((upload_file_collision_policy
        ⟨"media", "tmp", true, none, id, fun p => p ++ "_1"⟩
        (fun p => if p = "media/up/report.pdf" then some (FSEntry.file 1) else none)
        "up" false "report.pdf" 9 1 (by decide) (by decide) (by decide)).2.1 rfl).1,
    ((upload_file_collision_policy
        ⟨"media", "tmp", true, none, id, fun p => p ++ "_1"⟩
        (fun p => if p = "media/up/report.pdf" then some (FSEntry.file 1) else none)
        "up" false "report.pdf" 9 1 (by decide) (by decide) (by decide)).2.1 rfl).2⟩⟩

end FB
